import Mathlib

/-!
# Inventory Batch Ledger & FIFO Allocation Engine — shallow embedding

This file embeds the stock-inventory core of the server repository:

* `MedicineBatch` schema and its `pre('save')` hook   (src/unnamed/part_013)
* `StockMovement` schema                              (src/unnamed/part_015)
* `createDispensingRecord`        (src/controllers/dispensingController.js)
* `createDirectDispensingRecord`  (src/controllers/directDispensingController.js)
* `updateRequisitionItem`         (src/controllers/requisitionController.js, lines 115-207)
* `receiveItem`                   (src/controllers/requisitionController.js, lines 342-453)
* `updateStockAudit`              (src/controllers/incomingItemsController.js, lines 203-255)

Modelling conventions:
* JS numbers holding integral quantities are modelled as `Int` (the code only
  ever adds/subtracts/compares them; `parseInt` results are integers).
* Dates are modelled as `Int` timestamps; each operation takes the current
  clock value `now` (the code calls `new Date()` per request).
* Mongo documents are rows in a `List`; `_id` is a `Nat` assigned from a
  fresh-id counter.  `.save()` on a fetched document writes back by `_id`.
* `.sort('expiryDate')` (ascending) is modelled as a stable insertion sort
  by `expiryDate`.
* Free-text `reason` strings are not carried, except that a stock-audit
  ADJUSTMENT's reason embeds the direction word (`'Added'`/`'Removed'`,
  i.e. `difference > 0`), which is kept as the Boolean field `adjUp`.
* Out-of-engine collaborators (the `Dispensing`/`DirectDispensing` documents,
  the purchase-order bookkeeping, the medicine catalog) are reduced to what
  the claims need: counters of created records, a resolved medicine id, and
  a Boolean for a successful purchase-order lookup.  `Dispensing.create` is
  modelled as succeeding (its schema is not part of the engine and carries
  no quantity validation, like the sibling `DirectDispensing` schema).
-/

/-- Batch `status` enum of the `MedicineBatch` schema (src/unnamed/part_013). -/
inductive BatchStatus where
  | active
  | depleted
  | expired
  | damaged
deriving DecidableEq, Repr

/-- One `MedicineBatch` document (src/unnamed/part_013). -/
structure Batch where
  id : Nat
  medicine : Nat
  expiryDate : Int
  quantityReceived : Int
  quantityRemaining : Int
  status : BatchStatus
deriving DecidableEq, Repr

/-- Movement `type` enum of the `StockMovement` schema (src/unnamed/part_015). -/
inductive MovementType where
  | IN
  | OUT
  | ADJUSTMENT
  | DAMAGED
  | EXPIRED
deriving DecidableEq, Repr

/-- One `StockMovement` document (src/unnamed/part_015).  `batch` is nullable
in the schema.  `adjUp` models the direction word interpolated into the
audit-adjustment `reason` string (`difference > 0 ? 'Added' : 'Removed'`). -/
structure Movement where
  medicine : Nat
  batch : Option Nat
  mtype : MovementType
  quantity : Int
  adjUp : Bool
deriving DecidableEq, Repr

/-- The persistent store the engine reads and writes: the `MedicineBatch`
collection, the append-only `StockMovement` collection, counters for the
`Dispensing` and `DirectDispensing` records the two dispensing controllers
create, and the fresh-`_id` counter for new batches. -/
structure EngineState where
  batches : List Batch
  ledger : List Movement
  dispensings : Nat
  directDispensings : Nat
  nextBatchId : Nat
deriving DecidableEq, Repr

/-- The empty database. -/
def initState : EngineState :=
  { batches := [], ledger := [], dispensings := 0, directDispensings := 0, nextBatchId := 0 }

/-- The part of an HTTP response the claims talk about: status code, the
`success` flag, whether a `warning` field is present, and the two quantities
interpolated into the dispensing response messages (`allocated` units and the
`shortfall` still owed). -/
structure ApiResponse where
  status : Nat
  success : Bool
  warning : Bool := false
  allocated : Int := 0
  shortfall : Int := 0
deriving DecidableEq, Repr

/-- `MedicineBatchSchema.pre('save')` hook (src/unnamed/part_013, lines 57-64):
ran on every save, it forces `status` to `depleted` when
`quantityRemaining <= 0`, else to `expired` when `expiryDate < new Date()`. -/
def preSave (now : Int) (b : Batch) : Batch :=
  if b.quantityRemaining ≤ 0 then { b with status := BatchStatus.depleted }
  else if b.expiryDate < now then { b with status := BatchStatus.expired }
  else b

/-- Stable ascending sort by `expiryDate`, modelling Mongo `.sort('expiryDate')`. -/
def sortByExpiry (l : List Batch) : List Batch :=
  l.insertionSort (fun a b => a.expiryDate ≤ b.expiryDate)

/-- `MedicineBatch.find(filter).sort('expiryDate')`: the rows passing the
filter, oldest expiry first. -/
def eligibleOn (s : EngineState) (p : Batch → Bool) : List Batch :=
  sortByExpiry (s.batches.filter p)

/-- The batch query shared verbatim by the three allocation call sites
(dispensingController.js lines 53-58, directDispensingController.js lines
52-57, requisitionController.js lines 145-150):
`{medicine, status: 'active', quantityRemaining: {$gt: 0}, expiryDate: {$gt: new Date()}}`
sorted by `expiryDate`. -/
def allocEligible (now : Int) (s : EngineState) (mid : Nat) : List Batch :=
  eligibleOn s (fun b =>
    b.medicine == mid && b.status == BatchStatus.active &&
    decide (0 < b.quantityRemaining) && decide (now < b.expiryDate))

/-- The batch query of `updateStockAudit` (incomingItemsController.js lines
209-213): same filter but with no `quantityRemaining` condition. -/
def auditEligible (now : Int) (s : EngineState) (mid : Nat) : List Batch :=
  eligibleOn s (fun b =>
    b.medicine == mid && b.status == BatchStatus.active && decide (now < b.expiryDate))

/-- An `OUT` `StockMovement` as created inside the allocation loops. -/
def outMovement (mid : Nat) (batchId : Nat) (qty : Int) : Movement :=
  { medicine := mid, batch := some batchId, mtype := MovementType.OUT,
    quantity := qty, adjUp := false }

/-- The FIFO deduction loop of `createDispensingRecord` (dispensingController.js
lines 69-102), also verbatim in `createDirectDispensingRecord`
(directDispensingController.js lines 64-103).  Walks the eligible batches,
breaking when nothing is left to dispense; per batch deducts
`min(remainingToDispense, batch.quantityRemaining)`, clamps at 0 flipping the
status to `depleted`, saves (running the pre-save hook), and yields the
`(saved batch, deducted)` pairs in loop order together with the final
`remainingToDispense`. -/
def dispenseLoop (now : Int) : Int → List Batch → List (Batch × Int) × Int
  | need, [] => ([], need)
  | need, b :: rest =>
    if need ≤ 0 then ([], need)
    else
      let take := min need b.quantityRemaining
      let b1 : Batch := { b with quantityRemaining := b.quantityRemaining - take }
      let b2 : Batch :=
        if b1.quantityRemaining ≤ 0 then
          { b1 with status := BatchStatus.depleted, quantityRemaining := 0 }
        else b1
      let res := dispenseLoop now (need - take) rest
      ((preSave now b2, take) :: res.1, res.2)

/-- The FIFO deduction loop of `updateRequisitionItem` (requisitionController.js
lines 154-176).  Identical to `dispenseLoop` except that the source flips the
status with `if (batch.quantityRemaining === 0)` and performs no clamping
assignment. -/
def requisitionLoop (now : Int) : Int → List Batch → List (Batch × Int) × Int
  | need, [] => ([], need)
  | need, b :: rest =>
    if need ≤ 0 then ([], need)
    else
      let take := min need b.quantityRemaining
      let b1 : Batch := { b with quantityRemaining := b.quantityRemaining - take }
      let b2 : Batch :=
        if b1.quantityRemaining = 0 then { b1 with status := BatchStatus.depleted } else b1
      let res := requisitionLoop now (need - take) rest
      ((preSave now b2, take) :: res.1, res.2)

/-- Writing the saved loop documents back into the collection: each row is
replaced by its updated version when one of the pairs carries its `_id`. -/
def applyUpdates (batches : List Batch) (pairs : List (Batch × Int)) : List Batch :=
  batches.map (fun c =>
    match pairs.find? (fun p => p.1.id == c.id) with
    | some p => p.1
    | none => c)

/-- `.save()` of a single fetched document: replace the row with the same `_id`. -/
def replaceBatch (batches : List Batch) (nb : Batch) : List Batch :=
  batches.map (fun c => if c.id == nb.id then nb else c)

/-- The state change common to a dispensing-style allocation against one
medicine: run `dispenseLoop` over the eligible batches, write the updated
batches back, and append one `OUT` movement per deduction, in loop order. -/
def applyAllocation (now : Int) (s : EngineState) (mid : Nat) (need : Int) : EngineState :=
  let pairs := (dispenseLoop now need (allocEligible now s mid)).1
  { s with batches := applyUpdates s.batches pairs,
           ledger := s.ledger ++ pairs.map (fun p => outMovement mid p.1.id p.2) }

/-- `createDispensingRecord` (dispensingController.js lines 27-135).
`medicineDoc` is the result of the id-or-name medicine lookup (lines 35-46);
`quantity` the requested quantity.  The `Dispensing` document is created
first, unconditionally; every non-exception path responds 201 with
`success: true`.  The `allocated`/`shortfall` fields of the response model the
numbers interpolated into the success/warning messages (lines 110 and 118). -/
def createDispensingRecord (now : Int) (s : EngineState) (medicineDoc : Option Nat)
    (quantity : Int) : EngineState × ApiResponse :=
  let s1 : EngineState := { s with dispensings := s.dispensings + 1 }
  match medicineDoc with
  | some mid =>
    if 0 < quantity then
      let quantityToDispense := |quantity|
      let batches := allocEligible now s1 mid
      if batches.isEmpty then
        (s1, { status := 201, success := true, warning := true })
      else
        let remainingToDispense := (dispenseLoop now quantityToDispense batches).2
        let s2 := applyAllocation now s1 mid quantityToDispense
        if 0 < remainingToDispense then
          (s2, { status := 201, success := true, warning := true,
                 allocated := quantityToDispense - remainingToDispense,
                 shortfall := remainingToDispense })
        else
          (s2, { status := 201, success := true, allocated := quantityToDispense })
    else
      (s1, { status := 201, success := true, warning := true })
  | none => (s1, { status := 201, success := true, warning := true })

/-- One item of the `medicines` array handled by the loop body of
`createDirectDispensingRecord` (directDispensingController.js lines 38-111):
a resolved medicine (or `none` when neither id nor name matched) and the raw
quantity; the source computes `Math.abs(item.quantity || item.qty || 1)`, so a
zero quantity becomes 1.  A missing medicine or an empty eligible-batch list
just skips the item (`continue`). -/
def directItemStep (now : Int) (acc : EngineState) (it : Option Nat × Int) : EngineState :=
  match it.1 with
  | some mid =>
    let quantityToDispense : Int := if it.2 = 0 then 1 else |it.2|
    if (allocEligible now acc mid).isEmpty then acc
    else applyAllocation now acc mid quantityToDispense
  | none => acc

/-- `createDirectDispensingRecord` (directDispensingController.js lines 27-132).
`items` is `none` when the request body's `medicines` is absent or not an
array.  The `DirectDispensing` document is created first, unconditionally;
both paths respond 201 with `success: true` (a shortfall is only logged). -/
def createDirectDispensingRecord (now : Int) (s : EngineState)
    (items : Option (List (Option Nat × Int))) : EngineState × ApiResponse :=
  let s1 : EngineState := { s with directDispensings := s.directDispensings + 1 }
  match items with
  | some its => (its.foldl (directItemStep now) s1, { status := 201, success := true })
  | none => (s1, { status := 201, success := true })

/-- `updateRequisitionItem` (requisitionController.js lines 115-207), reduced
to the stock-relevant path: `found` is the requisition-and-item lookup
succeeding, `statusIssued` models `status === 'Issued'`, `mid` the item's
medicine, `issuedQty` the issued quantity.  On insufficient stock the partial
deductions and movements are kept but the response is a 400 error (lines
178-183); otherwise 200 success. -/
def updateRequisitionItem (now : Int) (s : EngineState) (found statusIssued : Bool)
    (mid : Nat) (issuedQty : Int) : EngineState × ApiResponse :=
  if found then
    if statusIssued && decide (0 < issuedQty) then
      let res := requisitionLoop now issuedQty (allocEligible now s mid)
      let s2 : EngineState :=
        { s with batches := applyUpdates s.batches res.1,
                 ledger := s.ledger ++ res.1.map (fun p => outMovement mid p.1.id p.2) }
      if 0 < res.2 then (s2, { status := 400, success := false })
      else (s2, { status := 200, success := true })
    else (s, { status := 200, success := true })
  else (s, { status := 404, success := false })

/-- `receiveItem` (requisitionController.js lines 342-453), reduced to the
engine: `poFound` is the purchase-order lookup succeeding (404 otherwise),
`mid` the found-or-created medicine, `expiry` the parsed expiry date (`none`
models `new Date(expiry)` being an invalid date, which makes
`MedicineBatch.create` throw a cast error caught as a 400), `qty` the
`parseInt(qty)` result.  No quantity validation is performed: the batch is
created with `quantityReceived = quantityRemaining = qty` (the pre-save hook
runs on create) and one `IN` movement of `qty` is recorded. -/
def receiveItem (now : Int) (s : EngineState) (mid : Nat) (expiry : Option Int)
    (qty : Int) (poFound : Bool) : EngineState × ApiResponse :=
  if poFound then
    match expiry with
    | none => (s, { status := 400, success := false })
    | some e =>
      let b := preSave now
        { id := s.nextBatchId, medicine := mid, expiryDate := e,
          quantityReceived := qty, quantityRemaining := qty, status := BatchStatus.active }
      let mv : Movement :=
        { medicine := mid, batch := some b.id, mtype := MovementType.IN,
          quantity := qty, adjUp := false }
      ({ s with batches := s.batches ++ [b], ledger := s.ledger ++ [mv],
                nextBatchId := s.nextBatchId + 1 },
       { status := 201, success := true })
  else (s, { status := 404, success := false })

/-- `updateStockAudit` (incomingItemsController.js lines 203-255): sum
`quantityRemaining` over the eligible batches, compute
`difference = actualCount - currentTotal`; when nonzero and a batch exists,
add the full difference to the oldest batch, clamping at 0 (status
`depleted`), save it, and record one `ADJUSTMENT` movement of
`Math.abs(difference)` whose reason carries the direction; in every case
respond 200 with `success: true`. -/
def updateStockAudit (now : Int) (s : EngineState) (mid : Nat)
    (actualCount : Int) : EngineState × ApiResponse :=
  let batches := auditEligible now s mid
  let currentTotal := (batches.map (fun b => b.quantityRemaining)).sum
  let difference := actualCount - currentTotal
  if difference ≠ 0 then
    match batches with
    | [] => (s, { status := 200, success := true })
    | oldest :: _ =>
      let o1 : Batch := { oldest with quantityRemaining := oldest.quantityRemaining + difference }
      let o2 : Batch :=
        if o1.quantityRemaining ≤ 0 then
          { o1 with status := BatchStatus.depleted, quantityRemaining := 0 }
        else o1
      let mv : Movement :=
        { medicine := mid, batch := some oldest.id, mtype := MovementType.ADJUSTMENT,
          quantity := |difference|, adjUp := decide (0 < difference) }
      ({ s with batches := replaceBatch s.batches (preSave now o2),
                ledger := s.ledger ++ [mv] },
       { status := 200, success := true })
  else (s, { status := 200, success := true })

/-- One engine request, tagged with the clock value at which it runs. -/
inductive Op where
  | receive (now : Int) (mid : Nat) (expiry : Option Int) (qty : Int) (poFound : Bool)
  | dispense (now : Int) (medicineDoc : Option Nat) (quantity : Int)
  | directDispense (now : Int) (items : Option (List (Option Nat × Int)))
  | requisitionIssue (now : Int) (found statusIssued : Bool) (mid : Nat) (issuedQty : Int)
  | reconcile (now : Int) (mid : Nat) (actualCount : Int)
deriving DecidableEq, Repr

/-- State transition of one request (response discarded). -/
def applyOp (s : EngineState) : Op → EngineState
  | Op.receive now mid e q po => (receiveItem now s mid e q po).1
  | Op.dispense now med q => (createDispensingRecord now s med q).1
  | Op.directDispense now its => (createDirectDispensingRecord now s its).1
  | Op.requisitionIssue now f st mid q => (updateRequisitionItem now s f st mid q).1
  | Op.reconcile now mid a => (updateStockAudit now s mid a).1

/-- Run a sequence of requests. -/
def runOps (s : EngineState) : List Op → EngineState
  | [] => s
  | op :: ops => runOps (applyOp s op) ops

/-- Signed reading of one ledger entry: `IN` and upward `ADJUSTMENT` positive,
`OUT`, `DAMAGED`, `EXPIRED` and downward `ADJUSTMENT` negative. -/
def signedQty (m : Movement) : Int :=
  match m.mtype with
  | MovementType.IN => m.quantity
  | MovementType.OUT => -m.quantity
  | MovementType.ADJUSTMENT => if m.adjUp then m.quantity else -m.quantity
  | MovementType.DAMAGED => -m.quantity
  | MovementType.EXPIRED => -m.quantity

/-- Signed sum of all ledger entries referencing a given batch. -/
def signedSum (l : List Movement) (batchId : Nat) : Int :=
  ((l.filter (fun m => m.batch == some batchId)).map signedQty).sum

/-- Well-formedness of the store: batch `_id`s are pairwise distinct and below
the fresh-id counter, and so is every batch reference in the ledger. -/
def WFState (s : EngineState) : Prop :=
  (∀ b ∈ s.batches, b.id < s.nextBatchId) ∧
  (s.batches.map Batch.id).Nodup ∧
  (∀ m ∈ s.ledger, ∀ i, m.batch = some i → i < s.nextBatchId)

/-- The reconstructability invariant: for every batch row, the signed sum of
the ledger entries referencing it equals its current remaining quantity. -/
def LedgerMatches (s : EngineState) : Prop :=
  ∀ b ∈ s.batches, signedSum s.ledger b.id = b.quantityRemaining

/-- All batch rows carry a non-negative remaining quantity. -/
def NonnegBatches (s : EngineState) : Prop :=
  ∀ b ∈ s.batches, 0 ≤ b.quantityRemaining

/-- Guard for the ledger-reconstructability invariant: a stock audit must not
apply a negative difference that exceeds the oldest eligible batch's remaining
quantity (in that case `updateStockAudit` clamps the batch at 0 but still logs
the full magnitude, silently discarding the excess). -/
def auditNoClamp (s : EngineState) : Op → Bool
  | Op.reconcile now mid actual =>
    match auditEligible now s mid with
    | [] => true
    | oldest :: rest =>
      decide (0 ≤ oldest.quantityRemaining +
        (actual - ((oldest :: rest).map (fun b => b.quantityRemaining)).sum))
  | _ => true

/-- `auditNoClamp` holding at every step of a run, each checked against the
state the step runs in. -/
def noClampRun (s : EngineState) : List Op → Bool
  | [] => true
  | op :: ops => auditNoClamp s op && noClampRun (applyOp s op) ops

/-- Receives of non-negative quantities are the only way a batch could start
negative; all other requests keep remaining quantities non-negative. -/
def receiveNonneg : Op → Bool
  | Op.receive _ _ _ q _ => decide (0 ≤ q)
  | _ => true

/-! ## Basic lemmas about the embedded operations -/

@[simp] theorem preSave_id (now : Int) (b : Batch) : (preSave now b).id = b.id := by
  unfold preSave; split
  · rfl
  · split <;> rfl

@[simp] theorem preSave_medicine (now : Int) (b : Batch) :
    (preSave now b).medicine = b.medicine := by
  unfold preSave; split
  · rfl
  · split <;> rfl

@[simp] theorem preSave_quantityRemaining (now : Int) (b : Batch) :
    (preSave now b).quantityRemaining = b.quantityRemaining := by
  unfold preSave; split
  · rfl
  · split <;> rfl

@[simp] theorem preSave_quantityReceived (now : Int) (b : Batch) :
    (preSave now b).quantityReceived = b.quantityReceived := by
  unfold preSave; split
  · rfl
  · split <;> rfl

@[simp] theorem signedSum_nil (i : Nat) : signedSum [] i = 0 := rfl

theorem signedSum_append (l₁ l₂ : List Movement) (i : Nat) :
    signedSum (l₁ ++ l₂) i = signedSum l₁ i + signedSum l₂ i := by
  simp [signedSum, List.filter_append]

theorem signedSum_eq_zero {l : List Movement} {i : Nat}
    (h : ∀ m ∈ l, m.batch ≠ some i) : signedSum l i = 0 := by
  have : l.filter (fun m => m.batch == some i) = [] := by
    apply List.filter_eq_nil_iff.2
    intro m hm
    simpa using h m hm
  simp [signedSum, this]

theorem signedSum_singleton (m : Movement) (i : Nat) :
    signedSum [m] i = if m.batch = some i then signedQty m else 0 := by
  by_cases h : m.batch = some i
  · have hb : (m.batch == some i) = true := beq_iff_eq.2 h
    simp [signedSum, List.filter_cons, hb, h]
  · have hb : (m.batch == some i) = false := beq_eq_false_iff_ne.2 h
    simp [signedSum, List.filter_cons, hb, h]

theorem sortByExpiry_perm (l : List Batch) : (sortByExpiry l).Perm l :=
  List.perm_insertionSort _ l

theorem mem_eligibleOn {s : EngineState} {p : Batch → Bool} {b : Batch} :
    b ∈ eligibleOn s p ↔ b ∈ s.batches ∧ p b = true := by
  rw [eligibleOn, (sortByExpiry_perm _).mem_iff, List.mem_filter]

theorem eligibleOn_ids_nodup {s : EngineState} (p : Batch → Bool)
    (h : (s.batches.map Batch.id).Nodup) : ((eligibleOn s p).map Batch.id).Nodup := by
  have hperm : ((eligibleOn s p).map Batch.id).Perm ((s.batches.filter p).map Batch.id) :=
    (sortByExpiry_perm _).map _
  rw [hperm.nodup_iff]
  exact h.sublist ((List.filter_sublist _).map _)

theorem signedSum_cons (m : Movement) (l : List Movement) (i : Nat) :
    signedSum (m :: l) i = (if m.batch = some i then signedQty m else 0) + signedSum l i := by
  by_cases h : m.batch = some i
  · have hb : (m.batch == some i) = true := beq_iff_eq.2 h
    simp [signedSum, List.filter_cons, hb, h]
  · have hb : (m.batch == some i) = false := beq_eq_false_iff_ne.2 h
    simp [signedSum, List.filter_cons, hb, h]

/-- Every `(saved batch, deducted)` pair produced by the dispensing loop comes
from a batch of the input list, with the same `_id` and medicine, a deduction
bounded by the batch's remaining quantity, and the saved remaining quantity
equal to the old one minus the deduction (the clamp only ever fires at
exactly zero, because the deduction is a `min`). -/
theorem dispenseLoop_mem (now : Int) (need : Int) (bs : List Batch) :
    ∀ p ∈ (dispenseLoop now need bs).1,
      ∃ b ∈ bs, p.1.id = b.id ∧ p.1.medicine = b.medicine ∧
        p.2 ≤ b.quantityRemaining ∧ p.1.quantityRemaining = b.quantityRemaining - p.2 := by
  induction bs generalizing need with
  | nil => simp [dispenseLoop]
  | cons b rest ih =>
    intro p hp
    by_cases hneed : need ≤ 0
    · simp [dispenseLoop, hneed] at hp
    · simp only [dispenseLoop, if_neg hneed] at hp
      rcases List.mem_cons.1 hp with rfl | hmem
      · refine ⟨b, List.mem_cons_self b rest, ?_, ?_, min_le_right need b.quantityRemaining, ?_⟩
        · rw [preSave_id]; split <;> rfl
        · rw [preSave_medicine]; split <;> rfl
        · rw [preSave_quantityRemaining]
          have h0 : 0 ≤ b.quantityRemaining - min need b.quantityRemaining :=
            sub_nonneg.2 (min_le_right need b.quantityRemaining)
          split
          · next hle => exact (le_antisymm hle h0).symm
          · rfl
      · obtain ⟨c, hc, hrest⟩ := ih (need - min need b.quantityRemaining) p hmem
        exact ⟨c, List.mem_cons_of_mem b hc, hrest⟩

/-- The `_id`s of the loop's pairs form a sublist (hence: no duplicates when
the input has none) of the input batches' `_id`s. -/
theorem dispenseLoop_ids_sublist (now : Int) (need : Int) (bs : List Batch) :
    ((dispenseLoop now need bs).1.map (fun p => p.1.id)).Sublist (bs.map Batch.id) := by
  induction bs generalizing need with
  | nil => simp [dispenseLoop]
  | cons b rest ih =>
    by_cases hneed : need ≤ 0
    · simp [dispenseLoop, hneed]
    · simp only [dispenseLoop, if_neg hneed, List.map_cons, preSave_id, apply_ite Batch.id,
        ite_self]
      exact (ih (need - min need b.quantityRemaining)).cons₂ b.id

/-- The requisition-issue loop computes the same result as the dispensing
loop: its clamp condition `=== 0` coincides with the dispensing loop's
`<= 0` branch because the deducted amount is a `min`. -/
theorem requisitionLoop_eq_dispenseLoop (now : Int) (need : Int) (bs : List Batch) :
    requisitionLoop now need bs = dispenseLoop now need bs := by
  induction bs generalizing need with
  | nil => rfl
  | cons b rest ih =>
    by_cases hneed : need ≤ 0
    · simp [requisitionLoop, dispenseLoop, hneed]
    · simp only [requisitionLoop, dispenseLoop, if_neg hneed, ih]
      have h0 : 0 ≤ b.quantityRemaining - min need b.quantityRemaining :=
        sub_nonneg.2 (min_le_right need b.quantityRemaining)
      by_cases hz : b.quantityRemaining - min need b.quantityRemaining = 0
      · simp [hz]
      · have : ¬ b.quantityRemaining - min need b.quantityRemaining ≤ 0 :=
          fun hle => hz (le_antisymm hle h0)
        simp [hz, this]

theorem signedQty_outMovement (mid j : Nat) (q : Int) :
    signedQty (outMovement mid j q) = -q := rfl

theorem signedSum_outs_eq_zero (mid : Nat) (pairs : List (Batch × Int)) (i : Nat)
    (h : ∀ p ∈ pairs, p.1.id ≠ i) :
    signedSum (pairs.map (fun p => outMovement mid p.1.id p.2)) i = 0 := by
  apply signedSum_eq_zero
  intro m hm
  obtain ⟨p, hp, rfl⟩ := List.mem_map.1 hm
  simpa [outMovement] using h p hp

theorem signedSum_outs_find (mid : Nat) (pairs : List (Batch × Int)) (i : Nat)
    (p : Batch × Int) (hnd : (pairs.map (fun q => q.1.id)).Nodup)
    (hf : pairs.find? (fun q => q.1.id == i) = some p) :
    signedSum (pairs.map (fun q => outMovement mid q.1.id q.2)) i = -p.2 := by
  induction pairs with
  | nil => simp at hf
  | cons q rest ih =>
    rw [List.map_cons, signedSum_cons]
    rw [List.find?_cons] at hf
    by_cases hq : q.1.id = i
    · have hqb : (q.1.id == i) = true := beq_iff_eq.2 hq
      rw [hqb] at hf
      obtain rfl : q = p := by simpa using hf
      have hrest : signedSum (rest.map (fun r => outMovement mid r.1.id r.2)) i = 0 := by
        apply signedSum_outs_eq_zero
        intro r hr hri
        have : q.1.id ∈ rest.map (fun r => r.1.id) :=
          hq ▸ hri ▸ List.mem_map_of_mem (fun r => r.1.id) hr
        exact (List.nodup_cons.1 hnd).1 this
      have hb : (outMovement mid q.1.id q.2).batch = some i := by
        simp [outMovement, hq]
      rw [if_pos hb, hrest, add_zero, signedQty_outMovement]
    · have hqb : (q.1.id == i) = false := beq_eq_false_iff_ne.2 hq
      rw [hqb] at hf
      have hne : (outMovement mid q.1.id q.2).batch ≠ some i := by
        simpa [outMovement] using hq
      rw [if_neg hne, ih (List.nodup_cons.1 hnd).2 hf, zero_add]

theorem applyUpdates_id_map (batches : List Batch) (pairs : List (Batch × Int)) :
    (applyUpdates batches pairs).map Batch.id = batches.map Batch.id := by
  rw [applyUpdates, List.map_map]
  apply List.map_congr_left
  intro c _
  simp only [Function.comp]
  cases hf : pairs.find? (fun p => p.1.id == c.id) with
  | none => rfl
  | some p =>
    show p.1.id = c.id
    have h := List.find?_some hf
    exact beq_iff_eq.1 h

/-- A dispensing-style allocation preserves store well-formedness and the
ledger-reconstructability invariant: each deducted batch loses exactly the
quantity of the `OUT` entry recorded against it, and untouched batches get no
new entries. -/
theorem applyAllocation_preserves (now : Int) (s : EngineState) (mid : Nat) (need : Int)
    (hWF : WFState s) (hL : LedgerMatches s) :
    WFState (applyAllocation now s mid need) ∧ LedgerMatches (applyAllocation now s mid need) := by
  obtain ⟨hlt, hnd, href⟩ := hWF
  have hbsnd : ((allocEligible now s mid).map Batch.id).Nodup :=
    eligibleOn_ids_nodup _ hnd
  have hsub := dispenseLoop_ids_sublist now need (allocEligible now s mid)
  have hpnd := hbsnd.sublist hsub
  have hploop := dispenseLoop_mem now need (allocEligible now s mid)
  have hmemEl : ∀ b ∈ allocEligible now s mid, b ∈ s.batches :=
    fun b hb => (mem_eligibleOn.1 hb).1
  have hpairmem : ∀ p ∈ (dispenseLoop now need (allocEligible now s mid)).1,
      ∃ b ∈ s.batches, p.1.id = b.id := by
    intro p hp
    obtain ⟨b, hb, hid, _⟩ := hploop p hp
    exact ⟨b, hmemEl b hb, hid⟩
  refine ⟨⟨?_, ?_, ?_⟩, ?_⟩
  · intro b' hb'
    have hmm : b'.id ∈ (applyUpdates s.batches
        (dispenseLoop now need (allocEligible now s mid)).1).map Batch.id :=
      List.mem_map_of_mem Batch.id hb'
    rw [applyUpdates_id_map] at hmm
    obtain ⟨c, hc, hcid⟩ := List.mem_map.1 hmm
    show b'.id < s.nextBatchId
    exact hcid ▸ hlt c hc
  · show ((applyUpdates s.batches
        (dispenseLoop now need (allocEligible now s mid)).1).map Batch.id).Nodup
    rw [applyUpdates_id_map]
    exact hnd
  · intro m hm i hbi
    have hm2 : m ∈ s.ledger ++ (dispenseLoop now need (allocEligible now s mid)).1.map
        (fun p => outMovement mid p.1.id p.2) := hm
    show i < s.nextBatchId
    rcases List.mem_append.1 hm2 with hold | hnew
    · exact href m hold i hbi
    · obtain ⟨p, hp, rfl⟩ := List.mem_map.1 hnew
      obtain ⟨b, hb, hid⟩ := hpairmem p hp
      have hip : p.1.id = i := by simpa [outMovement] using hbi
      rw [← hip, hid]
      exact hlt b hb
  · intro b' hb'
    have hb2 : b' ∈ applyUpdates s.batches
        (dispenseLoop now need (allocEligible now s mid)).1 := hb'
    rw [applyUpdates] at hb2
    obtain ⟨c, hc, rfl⟩ := List.mem_map.1 hb2
    show signedSum (s.ledger ++ (dispenseLoop now need (allocEligible now s mid)).1.map
        (fun p => outMovement mid p.1.id p.2)) _ = _
    cases hf : (dispenseLoop now need (allocEligible now s mid)).1.find?
        (fun p => p.1.id == c.id) with
    | none =>
      have hz : signedSum ((dispenseLoop now need (allocEligible now s mid)).1.map
          (fun p => outMovement mid p.1.id p.2)) c.id = 0 := by
        apply signedSum_outs_eq_zero
        intro p hp hpc
        have hnone := List.find?_eq_none.1 hf p hp
        rw [hpc] at hnone
        simp at hnone
      show signedSum _ c.id = c.quantityRemaining
      rw [signedSum_append, hz, add_zero]
      exact hL c hc
    | some p =>
      have hpt := List.mem_of_find?_eq_some hf
      have h1 := List.find?_some hf
      have hpc : p.1.id = c.id := beq_iff_eq.1 h1
      obtain ⟨b, hbel, hid, hmed, htake, hrem⟩ := hploop p hpt
      have hbc : b = c :=
        List.inj_on_of_nodup_map hnd (hmemEl b hbel) hc (by rw [← hid, hpc])
      subst hbc
      show signedSum _ p.1.id = p.1.quantityRemaining
      rw [signedSum_append, hpc, hL b hc,
        signedSum_outs_find mid _ b.id p hpnd (hpc ▸ hf), hrem]
      ring

/-- Allocations never drive a batch negative: each deduction is a `min` with
the batch's remaining quantity. -/
theorem applyAllocation_nonneg (now : Int) (s : EngineState) (mid : Nat) (need : Int)
    (h : NonnegBatches s) : NonnegBatches (applyAllocation now s mid need) := by
  intro b' hb'
  have hb2 : b' ∈ applyUpdates s.batches
      (dispenseLoop now need (allocEligible now s mid)).1 := hb'
  rw [applyUpdates] at hb2
  obtain ⟨c, hc, rfl⟩ := List.mem_map.1 hb2
  cases hf : (dispenseLoop now need (allocEligible now s mid)).1.find?
      (fun p => p.1.id == c.id) with
  | none =>
    show 0 ≤ c.quantityRemaining
    exact h c hc
  | some p =>
    have hpt := List.mem_of_find?_eq_some hf
    obtain ⟨b, hbel, hid, hmed, htake, hrem⟩ :=
      dispenseLoop_mem now need (allocEligible now s mid) p hpt
    show 0 ≤ p.1.quantityRemaining
    rw [hrem]
    exact sub_nonneg.2 htake

theorem replaceBatch_id_map (batches : List Batch) (nb : Batch) :
    (replaceBatch batches nb).map Batch.id = batches.map Batch.id := by
  rw [replaceBatch, List.map_map]
  apply List.map_congr_left
  intro c _
  simp only [Function.comp]
  by_cases h : (c.id == nb.id) = true
  · simp only [if_pos h]
    exact (beq_iff_eq.1 h).symm
  · simp only [if_neg h]

theorem signedQty_adjustment (mid oid : Nat) (d : Int) (hd : d ≠ 0) :
    signedQty { medicine := mid, batch := some oid, mtype := MovementType.ADJUSTMENT,
                quantity := |d|, adjUp := decide (0 < d) } = d := by
  simp only [signedQty]
  by_cases h : 0 < d
  · simp [h, abs_of_pos h]
  · have hneg : d < 0 := lt_of_le_of_ne (not_lt.1 h) hd
    simp [h, abs_of_neg hneg]

/-- Replacing one stored batch and appending one movement referencing it keeps
the store well-formed and the ledger reconstructable, provided the movement's
signed quantity is exactly the change in the batch's remaining quantity. -/
theorem adjust_preserves (s : EngineState) (oldest o3 : Batch) (mv : Movement)
    (holdmem : oldest ∈ s.batches)
    (hlt : ∀ b ∈ s.batches, b.id < s.nextBatchId)
    (hnd : (s.batches.map Batch.id).Nodup)
    (href : ∀ m ∈ s.ledger, ∀ i, m.batch = some i → i < s.nextBatchId)
    (hL : LedgerMatches s)
    (hid : o3.id = oldest.id)
    (hmv : mv.batch = some oldest.id)
    (hq : signedQty mv = o3.quantityRemaining - oldest.quantityRemaining) :
    WFState { s with batches := replaceBatch s.batches o3, ledger := s.ledger ++ [mv] } ∧
    LedgerMatches { s with batches := replaceBatch s.batches o3, ledger := s.ledger ++ [mv] } := by
  refine ⟨⟨?_, ?_, ?_⟩, ?_⟩
  · intro b' hb'
    have hmm : b'.id ∈ (replaceBatch s.batches o3).map Batch.id :=
      List.mem_map_of_mem Batch.id hb'
    rw [replaceBatch_id_map] at hmm
    obtain ⟨c, hc, hcid⟩ := List.mem_map.1 hmm
    show b'.id < s.nextBatchId
    exact hcid ▸ hlt c hc
  · show ((replaceBatch s.batches o3).map Batch.id).Nodup
    rw [replaceBatch_id_map]
    exact hnd
  · intro m hm i hbi
    have hm2 : m ∈ s.ledger ++ [mv] := hm
    show i < s.nextBatchId
    rcases List.mem_append.1 hm2 with hold | hnew
    · exact href m hold i hbi
    · obtain rfl : m = mv := by simpa using hnew
      have : oldest.id = i := by rw [hmv] at hbi; exact Option.some.inj hbi
      exact this ▸ hlt oldest holdmem
  · intro b' hb'
    have hb2 : b' ∈ replaceBatch s.batches o3 := hb'
    rw [replaceBatch] at hb2
    obtain ⟨c, hc, rfl⟩ := List.mem_map.1 hb2
    by_cases hcid : (c.id == o3.id) = true
    · have hco : c = oldest :=
        List.inj_on_of_nodup_map hnd hc holdmem (by rw [beq_iff_eq.1 hcid, hid])
      show signedSum (s.ledger ++ [mv]) (if (c.id == o3.id) = true then o3 else c).id
          = (if (c.id == o3.id) = true then o3 else c).quantityRemaining
      rw [if_pos hcid, signedSum_append, hid, signedSum_singleton, if_pos hmv,
        ← hco, hL c hc, hco, hq]
      ring
    · show signedSum (s.ledger ++ [mv]) (if (c.id == o3.id) = true then o3 else c).id
          = (if (c.id == o3.id) = true then o3 else c).quantityRemaining
      rw [if_neg hcid, signedSum_append, signedSum_singleton]
      have hne : ¬ mv.batch = some c.id := by
        rw [hmv]
        intro hcon
        have h1 : oldest.id = c.id := Option.some.inj hcon
        have : c = oldest :=
          List.inj_on_of_nodup_map hnd hc holdmem h1.symm
        exact hcid (beq_iff_eq.2 (by rw [this, ← hid]))
      rw [if_neg hne, add_zero]
      exact hL c hc

/-- A stock audit preserves well-formedness and — when it does not clamp —
the ledger-reconstructability invariant. -/
theorem updateStockAudit_preserves (now : Int) (s : EngineState) (mid : Nat) (actual : Int)
    (hWF : WFState s) (hL : LedgerMatches s)
    (hnc : auditNoClamp s (Op.reconcile now mid actual) = true) :
    WFState (updateStockAudit now s mid actual).1 ∧
    LedgerMatches (updateStockAudit now s mid actual).1 := by
  obtain ⟨hlt, hnd, href⟩ := hWF
  by_cases hd : actual - ((auditEligible now s mid).map (fun b => b.quantityRemaining)).sum = 0
  · have hs : (updateStockAudit now s mid actual).1 = s := by
      simp [updateStockAudit, hd]
    rw [hs]
    exact ⟨⟨hlt, hnd, href⟩, hL⟩
  · cases he : auditEligible now s mid with
    | nil =>
      have hs : (updateStockAudit now s mid actual).1 = s := by
        simp only [updateStockAudit, he]
        split <;> rfl
      rw [hs]
      exact ⟨⟨hlt, hnd, href⟩, hL⟩
    | cons oldest rest =>
      rw [he] at hd
      have holdmem : oldest ∈ s.batches := by
        have hm : oldest ∈ auditEligible now s mid := by
          rw [he]; exact List.mem_cons_self oldest rest
        exact (mem_eligibleOn.1 hm).1
      have hcl : 0 ≤ oldest.quantityRemaining +
          (actual - ((oldest :: rest).map (fun b => b.quantityRemaining)).sum) := by
        have h := hnc
        simp only [auditNoClamp, he] at h
        exact of_decide_eq_true h
      simp only [updateStockAudit, he, if_pos hd]
      apply adjust_preserves s oldest _ _ holdmem hlt hnd href hL
      · rw [preSave_id]
        split <;> rfl
      · rfl
      · rw [signedQty_adjustment _ _ _ hd, preSave_quantityRemaining]
        split
        · next hle =>
          have h0 : oldest.quantityRemaining +
              (actual - ((oldest :: rest).map (fun b => b.quantityRemaining)).sum) = 0 :=
            le_antisymm hle hcl
          dsimp only
          omega
        · ring

theorem replaceBatch_nonneg (batches : List Batch) (o3 : Batch)
    (h : ∀ b ∈ batches, 0 ≤ b.quantityRemaining) (h3 : 0 ≤ o3.quantityRemaining) :
    ∀ b ∈ replaceBatch batches o3, 0 ≤ b.quantityRemaining := by
  intro b' hb'
  rw [replaceBatch] at hb'
  obtain ⟨c, hc, rfl⟩ := List.mem_map.1 hb'
  by_cases hcid : (c.id == o3.id) = true
  · rw [if_pos hcid]; exact h3
  · rw [if_neg hcid]; exact h c hc

/-- A stock audit never leaves a negative remaining quantity: the clamp sets
the adjusted batch to exactly 0 whenever the arithmetic would go at or below
zero. -/
theorem updateStockAudit_nonneg (now : Int) (s : EngineState) (mid : Nat) (actual : Int)
    (h : NonnegBatches s) : NonnegBatches (updateStockAudit now s mid actual).1 := by
  by_cases hd : actual - ((auditEligible now s mid).map (fun b => b.quantityRemaining)).sum = 0
  · have hs : (updateStockAudit now s mid actual).1 = s := by
      simp [updateStockAudit, hd]
    rw [hs]; exact h
  · cases he : auditEligible now s mid with
    | nil =>
      have hs : (updateStockAudit now s mid actual).1 = s := by
        simp only [updateStockAudit, he]
        split <;> rfl
      rw [hs]; exact h
    | cons oldest rest =>
      rw [he] at hd
      simp only [updateStockAudit, he, if_pos hd]
      intro b' hb'
      refine replaceBatch_nonneg s.batches _ h ?_ b' hb'
      rw [preSave_quantityRemaining]
      split
      · exact le_refl 0
      · next hgt => exact (not_le.1 hgt).le

/-- The successful path of `receiveItem`, with the created batch's `_id` made
explicit (the pre-save hook does not change it). -/
theorem receiveItem_some_eq (now : Int) (s : EngineState) (mid : Nat) (e qty : Int) :
    receiveItem now s mid (some e) qty true
      = ({ s with
            batches := s.batches ++ [preSave now
              { id := s.nextBatchId, medicine := mid, expiryDate := e,
                quantityReceived := qty, quantityRemaining := qty,
                status := BatchStatus.active }],
            ledger := s.ledger ++ [{ medicine := mid, batch := some s.nextBatchId,
                                     mtype := MovementType.IN, quantity := qty,
                                     adjUp := false }],
            nextBatchId := s.nextBatchId + 1 },
         { status := 201, success := true }) := by
  simp only [receiveItem, preSave_id, if_true]

/-- Appending a batch with a fresh `_id` together with one movement that
references it and carries its starting quantity preserves well-formedness and
reconstructability. -/
theorem append_fresh_preserves (s : EngineState) (nb : Batch) (mv : Movement)
    (hWF : WFState s) (hL : LedgerMatches s)
    (hid : nb.id = s.nextBatchId)
    (hmv : mv.batch = some s.nextBatchId)
    (hq : signedQty mv = nb.quantityRemaining) :
    WFState { s with batches := s.batches ++ [nb], ledger := s.ledger ++ [mv],
                     nextBatchId := s.nextBatchId + 1 } ∧
    LedgerMatches { s with batches := s.batches ++ [nb], ledger := s.ledger ++ [mv],
                           nextBatchId := s.nextBatchId + 1 } := by
  obtain ⟨hlt, hnd, href⟩ := hWF
  refine ⟨⟨?_, ?_, ?_⟩, ?_⟩
  · intro b' hb'
    have hb2 : b' ∈ s.batches ++ [nb] := hb'
    show b'.id < s.nextBatchId + 1
    rcases List.mem_append.1 hb2 with hold | hnew
    · exact Nat.lt_succ_of_lt (hlt b' hold)
    · have hbe : b' = nb := by simpa using hnew
      rw [hbe, hid]
      exact Nat.lt_succ_self s.nextBatchId
  · show ((s.batches ++ [nb]).map Batch.id).Nodup
    rw [List.map_append]
    refine hnd.append (List.nodup_singleton nb.id) ?_
    intro a ha hb
    obtain ⟨c, hc, rfl⟩ := List.mem_map.1 ha
    have h1 : c.id < s.nextBatchId := hlt c hc
    have h2 : c.id = nb.id := by simpa using hb
    rw [hid] at h2
    omega
  · intro m hm i hbi
    have hm2 : m ∈ s.ledger ++ [mv] := hm
    show i < s.nextBatchId + 1
    rcases List.mem_append.1 hm2 with hold | hnew
    · exact Nat.lt_succ_of_lt (href m hold i hbi)
    · have hme : m = mv := by simpa using hnew
      rw [hme, hmv] at hbi
      have h2 : s.nextBatchId = i := Option.some.inj hbi
      omega
  · intro b' hb'
    have hb2 : b' ∈ s.batches ++ [nb] := hb'
    show signedSum (s.ledger ++ [mv]) b'.id = b'.quantityRemaining
    rcases List.mem_append.1 hb2 with hold | hnew
    · rw [signedSum_append, signedSum_singleton]
      have hne : ¬ mv.batch = some b'.id := by
        rw [hmv]
        intro hcon
        have h2 : s.nextBatchId = b'.id := Option.some.inj hcon
        have h3 := hlt b' hold
        omega
      rw [if_neg hne, add_zero]
      exact hL b' hold
    · have hbe : b' = nb := by simpa using hnew
      subst hbe
      have hz : signedSum s.ledger b'.id = 0 := by
        apply signedSum_eq_zero
        intro m hm hcon
        have h3 := href m hm _ hcon
        rw [hid] at h3
        exact absurd h3 (lt_irrefl _)
      rw [signedSum_append, hz, signedSum_singleton, hid, if_pos hmv, hq, zero_add]

/-- Receiving preserves well-formedness and reconstructability. -/
theorem receiveItem_preserves (now : Int) (s : EngineState) (mid : Nat) (expiry : Option Int)
    (qty : Int) (po : Bool) (hWF : WFState s) (hL : LedgerMatches s) :
    WFState (receiveItem now s mid expiry qty po).1 ∧
    LedgerMatches (receiveItem now s mid expiry qty po).1 := by
  cases po with
  | false => exact ⟨hWF, hL⟩
  | true =>
    cases expiry with
    | none => exact ⟨hWF, hL⟩
    | some e =>
      rw [receiveItem_some_eq]
      apply append_fresh_preserves s _ _ hWF hL
      · rw [preSave_id]
      · rfl
      · rw [preSave_quantityRemaining]
        rfl

/-- Receiving a non-negative quantity keeps all remaining quantities
non-negative. -/
theorem receiveItem_nonneg (now : Int) (s : EngineState) (mid : Nat) (expiry : Option Int)
    (qty : Int) (po : Bool) (h : NonnegBatches s) (hq : 0 ≤ qty) :
    NonnegBatches (receiveItem now s mid expiry qty po).1 := by
  cases po with
  | false => exact h
  | true =>
    cases expiry with
    | none => exact h
    | some e =>
      rw [receiveItem_some_eq]
      intro b' hb'
      have hb2 : b' ∈ s.batches ++ [preSave now
          { id := s.nextBatchId, medicine := mid, expiryDate := e,
            quantityReceived := qty, quantityRemaining := qty,
            status := BatchStatus.active }] := hb'
      rcases List.mem_append.1 hb2 with hold | hnew
      · exact h b' hold
      · have hbe := List.mem_singleton.1 hnew
        rw [hbe, preSave_quantityRemaining]
        exact hq

/-- `createDispensingRecord` either changes only the `Dispensing` counter, or
additionally performs one allocation for the resolved medicine. -/
theorem createDispensingRecord_fst (now : Int) (s : EngineState) (med : Option Nat) (q : Int) :
    (createDispensingRecord now s med q).1 = { s with dispensings := s.dispensings + 1 } ∨
    ∃ mid, (createDispensingRecord now s med q).1
      = applyAllocation now { s with dispensings := s.dispensings + 1 } mid |q| := by
  cases med with
  | none => left; rfl
  | some mid =>
    by_cases hq : 0 < q
    · cases he : (allocEligible now { s with dispensings := s.dispensings + 1 } mid).isEmpty with
      | true =>
        left
        simp [createDispensingRecord, hq, he]
      | false =>
        right
        refine ⟨mid, ?_⟩
        simp only [createDispensingRecord, if_pos hq, he, Bool.false_eq_true, if_false]
        split <;> rfl
    · left
      simp [createDispensingRecord, hq]

/-- `updateRequisitionItem` either leaves the store untouched or performs one
allocation (its loop agreeing with the dispensing loop). -/
theorem updateRequisitionItem_fst (now : Int) (s : EngineState) (f st : Bool) (mid : Nat)
    (q : Int) :
    (updateRequisitionItem now s f st mid q).1 = s ∨
    (updateRequisitionItem now s f st mid q).1 = applyAllocation now s mid q := by
  cases f with
  | false => left; rfl
  | true =>
    cases hst : st && decide (0 < q) with
    | false =>
      left
      simp [updateRequisitionItem, hst]
    | true =>
      right
      simp only [updateRequisitionItem, hst, if_true, requisitionLoop_eq_dispenseLoop]
      split <;> rfl

theorem directItemStep_preserves (now : Int) (acc : EngineState) (it : Option Nat × Int)
    (hWF : WFState acc) (hL : LedgerMatches acc) :
    WFState (directItemStep now acc it) ∧ LedgerMatches (directItemStep now acc it) := by
  cases hm : it.1 with
  | none =>
    simp only [directItemStep, hm]
    exact ⟨hWF, hL⟩
  | some mid =>
    cases he : (allocEligible now acc mid).isEmpty with
    | true =>
      simp only [directItemStep, hm, he, if_true]
      exact ⟨hWF, hL⟩
    | false =>
      simp only [directItemStep, hm, he, Bool.false_eq_true, if_false]
      exact applyAllocation_preserves now acc mid _ hWF hL

theorem foldl_directItemStep_preserves (now : Int) (its : List (Option Nat × Int)) :
    ∀ acc : EngineState, WFState acc → LedgerMatches acc →
      WFState (its.foldl (directItemStep now) acc) ∧
      LedgerMatches (its.foldl (directItemStep now) acc) := by
  induction its with
  | nil => intro acc h1 h2; exact ⟨h1, h2⟩
  | cons it rest ih =>
    intro acc h1 h2
    have hs := directItemStep_preserves now acc it h1 h2
    exact ih (directItemStep now acc it) hs.1 hs.2

theorem directItemStep_nonneg (now : Int) (acc : EngineState) (it : Option Nat × Int)
    (h : NonnegBatches acc) : NonnegBatches (directItemStep now acc it) := by
  cases hm : it.1 with
  | none =>
    simp only [directItemStep, hm]
    exact h
  | some mid =>
    cases he : (allocEligible now acc mid).isEmpty with
    | true =>
      simp only [directItemStep, hm, he, if_true]
      exact h
    | false =>
      simp only [directItemStep, hm, he, Bool.false_eq_true, if_false]
      exact applyAllocation_nonneg now acc mid _ h

theorem foldl_directItemStep_nonneg (now : Int) (its : List (Option Nat × Int)) :
    ∀ acc : EngineState, NonnegBatches acc →
      NonnegBatches (its.foldl (directItemStep now) acc) := by
  induction its with
  | nil => intro acc h; exact h
  | cons it rest ih =>
    intro acc h
    exact ih (directItemStep now acc it) (directItemStep_nonneg now acc it h)

/-- One engine request preserves well-formedness and — when no audit clamps —
the ledger-reconstructability invariant. -/
theorem applyOp_preserves (s : EngineState) (op : Op)
    (hWF : WFState s) (hL : LedgerMatches s) (hnc : auditNoClamp s op = true) :
    WFState (applyOp s op) ∧ LedgerMatches (applyOp s op) := by
  cases op with
  | receive now mid e q po => exact receiveItem_preserves now s mid e q po hWF hL
  | dispense now med q =>
    show WFState (createDispensingRecord now s med q).1 ∧
      LedgerMatches (createDispensingRecord now s med q).1
    rcases createDispensingRecord_fst now s med q with h | ⟨mid, h⟩
    · rw [h]; exact ⟨hWF, hL⟩
    · rw [h]; exact applyAllocation_preserves now _ mid _ hWF hL
  | directDispense now its =>
    cases its with
    | none => exact ⟨hWF, hL⟩
    | some l =>
      show WFState (l.foldl (directItemStep now)
          { s with directDispensings := s.directDispensings + 1 }) ∧
        LedgerMatches (l.foldl (directItemStep now)
          { s with directDispensings := s.directDispensings + 1 })
      exact foldl_directItemStep_preserves now l _ hWF hL
  | requisitionIssue now f st mid q =>
    show WFState (updateRequisitionItem now s f st mid q).1 ∧
      LedgerMatches (updateRequisitionItem now s f st mid q).1
    rcases updateRequisitionItem_fst now s f st mid q with h | h
    · rw [h]; exact ⟨hWF, hL⟩
    · rw [h]; exact applyAllocation_preserves now s mid q hWF hL
  | reconcile now mid a => exact updateStockAudit_preserves now s mid a hWF hL hnc

theorem applyOp_nonneg (s : EngineState) (op : Op)
    (h : NonnegBatches s) (hq : receiveNonneg op = true) :
    NonnegBatches (applyOp s op) := by
  cases op with
  | receive now mid e q po =>
    exact receiveItem_nonneg now s mid e q po h (of_decide_eq_true hq)
  | dispense now med q =>
    show NonnegBatches (createDispensingRecord now s med q).1
    rcases createDispensingRecord_fst now s med q with heq | ⟨mid, heq⟩
    · rw [heq]; exact h
    · rw [heq]; exact applyAllocation_nonneg now _ mid _ h
  | directDispense now its =>
    cases its with
    | none => exact h
    | some l =>
      show NonnegBatches (l.foldl (directItemStep now)
          { s with directDispensings := s.directDispensings + 1 })
      exact foldl_directItemStep_nonneg now l _ h
  | requisitionIssue now f st mid q =>
    show NonnegBatches (updateRequisitionItem now s f st mid q).1
    rcases updateRequisitionItem_fst now s f st mid q with heq | heq
    · rw [heq]; exact h
    · rw [heq]; exact applyAllocation_nonneg now s mid q h
  | reconcile now mid a => exact updateStockAudit_nonneg now s mid a h

theorem runOps_preserves (ops : List Op) :
    ∀ s : EngineState, WFState s → LedgerMatches s → noClampRun s ops = true →
      WFState (runOps s ops) ∧ LedgerMatches (runOps s ops) := by
  induction ops with
  | nil => intro s h1 h2 _; exact ⟨h1, h2⟩
  | cons op rest ih =>
    intro s h1 h2 hnc
    rw [noClampRun, Bool.and_eq_true] at hnc
    have hs := applyOp_preserves s op h1 h2 hnc.1
    exact ih (applyOp s op) hs.1 hs.2 hnc.2

theorem runOps_nonneg (ops : List Op) :
    ∀ s : EngineState, NonnegBatches s → ops.all receiveNonneg = true →
      NonnegBatches (runOps s ops) := by
  induction ops with
  | nil => intro s h _; exact h
  | cons op rest ih =>
    intro s h hall
    rw [List.all_cons, Bool.and_eq_true] at hall
    exact ih (applyOp s op) (applyOp_nonneg s op h hall.1) hall.2

theorem initState_WF : WFState initState := by
  refine ⟨?_, ?_, ?_⟩ <;> simp [initState, WFState]

theorem initState_ledgerMatches : LedgerMatches initState := by
  intro b hb
  simp [initState] at hb

theorem initState_nonneg : NonnegBatches initState := by
  intro b hb
  simp [initState] at hb

/-! ## Claim theorems -/

/-- Claim C1, counterexample: the claimed identity fails on the code.  After
`Receive(10)` then `Allocate(3)`, the batch has `quantityReceived = 10` and
`quantityRemaining = 7`, and the signed ledger sum (IN positive, OUT negative)
is `7 = quantityRemaining`, not `10 - 7 = 3`.  Moreover, after a clamped
reconciliation (batches of 2 and 10 units, audit count 5: difference `-7`
applied to the oldest batch holding 2), the signed ledger sum for that batch
is `-5`, matching neither `quantityReceived - quantityRemaining = 2` nor
`quantityRemaining = 0` — the excess discrepancy is silently lost. -/
theorem ledger_completeness_counterexample :
    ((runOps initState [Op.receive 0 0 (some 100) 10 true, Op.dispense 0 (some 0) 3]).batches
        = [{ id := 0, medicine := 0, expiryDate := 100, quantityReceived := 10,
             quantityRemaining := 7, status := BatchStatus.active }] ∧
      signedSum (runOps initState [Op.receive 0 0 (some 100) 10 true,
        Op.dispense 0 (some 0) 3]).ledger 0 = 7 ∧
      ¬ ((10 : Int) - 7 = 7)) ∧
    ((runOps initState [Op.receive 0 0 (some 50) 2 true, Op.receive 0 0 (some 200) 10 true,
        Op.reconcile 0 0 5]).batches
        = [{ id := 0, medicine := 0, expiryDate := 50, quantityReceived := 2,
             quantityRemaining := 0, status := BatchStatus.depleted },
           { id := 1, medicine := 0, expiryDate := 200, quantityReceived := 10,
             quantityRemaining := 10, status := BatchStatus.active }] ∧
      signedSum (runOps initState [Op.receive 0 0 (some 50) 2 true,
        Op.receive 0 0 (some 200) 10 true, Op.reconcile 0 0 5]).ledger 0 = -5 ∧
      ¬ ((2 : Int) - 0 = -5) ∧ ¬ ((0 : Int) = -5)) := by
  decide

/-- Claim C1, amended: after any sequence of Receive, Allocate (all three call
sites) and Reconcile operations from the empty store in which no
reconciliation applies a negative difference exceeding the oldest eligible
batch's remaining quantity, every batch's `quantityRemaining` — not
`quantityReceived - quantityRemaining` — equals the signed sum of the ledger
entries referencing it (IN and upward ADJUSTMENT positive; OUT and downward
ADJUSTMENT negative); in the clamped case the identity fails and the excess
discrepancy is unrepresented. -/
theorem ledger_completeness_amended (ops : List Op)
    (h : noClampRun initState ops = true) :
    ∀ b ∈ (runOps initState ops).batches,
      signedSum (runOps initState ops).ledger b.id = b.quantityRemaining :=
  (runOps_preserves ops initState initState_WF initState_ledgerMatches h).2

theorem ledger_completeness_amended_witness :
    noClampRun initState [Op.receive 0 0 (some 100) 10 true,
      Op.dispense 0 (some 0) 3, Op.reconcile 0 0 6] = true ∧
    ∀ b ∈ (runOps initState [Op.receive 0 0 (some 100) 10 true,
        Op.dispense 0 (some 0) 3, Op.reconcile 0 0 6]).batches,
      signedSum (runOps initState [Op.receive 0 0 (some 100) 10 true,
        Op.dispense 0 (some 0) 3, Op.reconcile 0 0 6]).ledger b.id = b.quantityRemaining :=
  ⟨by decide, ledger_completeness_amended _ (by decide)⟩

/-- Claim C2, counterexample: the `[0, quantity_received]` upper bound fails on the
code.  After `Receive(10)` a `Reconcile` with `actualCount = 50` adds the full
positive difference to the batch, leaving `quantityRemaining = 50` above
`quantityReceived = 10`. -/
theorem no_negative_stock_counterexample :
    (runOps initState [Op.receive 0 0 (some 100) 10 true, Op.reconcile 0 0 50]).batches
      = [{ id := 0, medicine := 0, expiryDate := 100, quantityReceived := 10,
           quantityRemaining := 50, status := BatchStatus.active }] ∧
    (10 : Int) < 50 := by
  decide

/-- Claim C2, amended: for every operation sequence from the empty store whose
Receive quantities are non-negative, every batch's `quantityRemaining` stays
at or above 0 at all times — in particular a Reconcile whose negative
difference meets or exceeds the oldest eligible batch's remaining quantity
clamps that batch at exactly 0 with status `depleted`.  The upper bound
`quantity_received` does not hold: a positive Reconcile difference can push
`quantityRemaining` above `quantityReceived`. -/
theorem no_negative_stock_amended :
    (∀ ops : List Op, ops.all receiveNonneg = true →
      ∀ b ∈ (runOps initState ops).batches, 0 ≤ b.quantityRemaining) ∧
    (∀ (now : Int) (s : EngineState) (mid : Nat) (a : Int) (oldest : Batch)
        (rest : List Batch),
      auditEligible now s mid = oldest :: rest →
      a - ((oldest :: rest).map (fun b => b.quantityRemaining)).sum ≠ 0 →
      oldest.quantityRemaining +
        (a - ((oldest :: rest).map (fun b => b.quantityRemaining)).sum) ≤ 0 →
      (updateStockAudit now s mid a).1.batches
        = replaceBatch s.batches
            { oldest with quantityRemaining := 0, status := BatchStatus.depleted }) := by
  constructor
  · intro ops hall
    exact runOps_nonneg ops initState initState_nonneg hall
  · intro now s mid a oldest rest he hd hcl
    simp only [updateStockAudit, he, if_pos hd]
    rw [if_pos hcl]
    simp [preSave]

theorem no_negative_stock_amended_witness :
    ([Op.receive 0 0 (some 100) 10 true, Op.reconcile 0 0 3].all receiveNonneg = true ∧
      ∀ b ∈ (runOps initState [Op.receive 0 0 (some 100) 10 true,
          Op.reconcile 0 0 3]).batches, 0 ≤ b.quantityRemaining) ∧
    (updateStockAudit 0
        { batches := [{ id := 0, medicine := 0, expiryDate := 100, quantityReceived := 10,
                        quantityRemaining := 10, status := BatchStatus.active }],
          ledger := [], dispensings := 0, directDispensings := 0, nextBatchId := 1 }
        0 (-5)).1.batches
      = replaceBatch
          [{ id := 0, medicine := 0, expiryDate := 100, quantityReceived := 10,
             quantityRemaining := 10, status := BatchStatus.active }]
          { id := 0, medicine := 0, expiryDate := 100, quantityReceived := 10,
            quantityRemaining := 0, status := BatchStatus.depleted } :=
  ⟨⟨by decide, no_negative_stock_amended.1 _ (by decide)⟩,
   no_negative_stock_amended.2 0 _ 0 (-5)
     { id := 0, medicine := 0, expiryDate := 100, quantityReceived := 10,
       quantityRemaining := 10, status := BatchStatus.active } []
     (by decide) (by decide) (by decide)⟩

/-- The allocation query on a store holding exactly one batch belonging to the
requested medicine, active, positive and unexpired, returns that batch. -/
theorem allocEligible_singleton (now : Int) (b : Batch) (led : List Movement) (d dd n : Nat)
    (hact : b.status = BatchStatus.active) (hrem : 0 < b.quantityRemaining)
    (hexp : now < b.expiryDate) :
    allocEligible now ⟨[b], led, d, dd, n⟩ b.medicine = [b] := by
  simp [allocEligible, eligibleOn, sortByExpiry, List.insertionSort, hact,
    decide_eq_true hrem, decide_eq_true hexp]

/-- Changing only the `Dispensing` counter does not affect the allocation
query. -/
theorem allocEligible_dispensings (now : Int) (s : EngineState) (k : Nat) (mid : Nat) :
    allocEligible now { s with dispensings := k } mid = allocEligible now s mid := rfl

/-- Every path of `createDispensingRecord` responds 201 with `success: true`
and has persisted exactly one new `Dispensing` record. -/
theorem createDispensingRecord_resp (now : Int) (s : EngineState) (med : Option Nat) (q : Int) :
    (createDispensingRecord now s med q).2.status = 201 ∧
    (createDispensingRecord now s med q).2.success = true ∧
    (createDispensingRecord now s med q).1.dispensings = s.dispensings + 1 := by
  cases med with
  | none => exact ⟨rfl, rfl, rfl⟩
  | some mid =>
    by_cases hq : 0 < q
    · cases he : (allocEligible now { s with dispensings := s.dispensings + 1 } mid).isEmpty with
      | true => simp [createDispensingRecord, hq, he]
      | false =>
        by_cases hr : 0 < (dispenseLoop now |q|
            (allocEligible now { s with dispensings := s.dispensings + 1 } mid)).2
        · simp [createDispensingRecord, applyAllocation, hq, he, hr]
        · simp [createDispensingRecord, applyAllocation, hq, he, hr]
    · simp [createDispensingRecord, hq]

/-- Both paths of `createDirectDispensingRecord` respond 201 with
`success: true`. -/
theorem createDirectDispensingRecord_resp (now : Int) (s : EngineState)
    (items : Option (List (Option Nat × Int))) :
    (createDirectDispensingRecord now s items).2.status = 201 ∧
    (createDirectDispensingRecord now s items).2.success = true := by
  cases items <;> exact ⟨rfl, rfl⟩

/-- Claim C3: starting from Medicine 0 with exactly two eligible batches — A
(`_id` 0, earlier expiry, remaining 10) and B (`_id` 1, later expiry,
remaining 20) — a single Allocate of 15 units allocates all 15, leaves A at 0
with status `depleted` and B at 15, and appends exactly two `OUT` ledger
entries, 10 against A then 5 against B, in that order. -/
theorem fifo_two_batch_scenario :
    createDispensingRecord 0
      { batches := [{ id := 0, medicine := 0, expiryDate := 100, quantityReceived := 10,
                      quantityRemaining := 10, status := BatchStatus.active },
                    { id := 1, medicine := 0, expiryDate := 200, quantityReceived := 20,
                      quantityRemaining := 20, status := BatchStatus.active }],
        ledger := [], dispensings := 0, directDispensings := 0, nextBatchId := 2 }
      (some 0) 15
      = ({ batches := [{ id := 0, medicine := 0, expiryDate := 100, quantityReceived := 10,
                         quantityRemaining := 0, status := BatchStatus.depleted },
                       { id := 1, medicine := 0, expiryDate := 200, quantityReceived := 20,
                         quantityRemaining := 15, status := BatchStatus.active }],
           ledger := [outMovement 0 0 10, outMovement 0 1 5],
           dispensings := 1, directDispensings := 0, nextBatchId := 2 },
         { status := 201, success := true, allocated := 15 }) := by
  decide

/-- Claim C4: starting from a medicine with exactly one batch, active,
unexpired, with `quantityRemaining = 5`, an Allocate of 8 units reports
`allocated = 5` and `shortfall = 3` (the numbers of the partial-dispense
warning), reduces the batch to 0 with status `depleted`, and appends exactly
one `OUT` ledger entry of quantity 5. -/
theorem partial_fulfillment (now : Int) (b : Batch) (led : List Movement) (d dd n : Nat)
    (hact : b.status = BatchStatus.active) (hrem : b.quantityRemaining = 5)
    (hexp : now < b.expiryDate) :
    createDispensingRecord now ⟨[b], led, d, dd, n⟩ (some b.medicine) 8
      = (⟨[{ b with quantityRemaining := 0, status := BatchStatus.depleted }],
          led ++ [outMovement b.medicine b.id 5], d + 1, dd, n⟩,
         { status := 201, success := true, warning := true, allocated := 5, shortfall := 3 }) := by
  have h5 : 0 < b.quantityRemaining := by omega
  have he : allocEligible now ⟨[b], led, d + 1, dd, n⟩ b.medicine = [b] :=
    allocEligible_singleton now b led (d + 1) dd n hact h5 hexp
  have hloop : dispenseLoop now 8 [b]
      = ([({ b with quantityRemaining := 0, status := BatchStatus.depleted }, 5)], 3) := by
    simp [dispenseLoop, hrem, preSave]
  simp [createDispensingRecord, applyAllocation, he, hloop, applyUpdates, outMovement]

theorem partial_fulfillment_witness :
    createDispensingRecord 0
      { batches := [{ id := 0, medicine := 0, expiryDate := 100, quantityReceived := 5,
                      quantityRemaining := 5, status := BatchStatus.active }],
        ledger := [], dispensings := 0, directDispensings := 0, nextBatchId := 1 }
      (some 0) 8
      = ({ batches := [{ id := 0, medicine := 0, expiryDate := 100, quantityReceived := 5,
                         quantityRemaining := 0, status := BatchStatus.depleted }],
           ledger := [outMovement 0 0 5], dispensings := 1, directDispensings := 0,
           nextBatchId := 1 },
         { status := 201, success := true, warning := true, allocated := 5, shortfall := 3 }) :=
  partial_fulfillment 0
    { id := 0, medicine := 0, expiryDate := 100, quantityReceived := 5,
      quantityRemaining := 5, status := BatchStatus.active }
    [] 0 0 1 rfl rfl (by decide)

/-- Claim C5, counterexample: a create-dispensing request with quantity 0 is
not rejected — the response is 201 with `success: true` and the `Dispensing`
record is persisted (the counter moves from 0 to 1), so the claimed
`InvalidRequest` rejection with no persisted record is false on the code. -/
theorem invalid_request_counterexample :
    (createDispensingRecord 0 initState (some 0) 0).2.success = true ∧
    (createDispensingRecord 0 initState (some 0) 0).2.status = 201 ∧
    (createDispensingRecord 0 initState (some 0) 0).1.dispensings = 1 := by
  decide

/-- Claim C5, amended: a create-dispensing request with quantity ≤ 0 changes
no batch and writes no ledger entry, but the `Dispensing` record is still
persisted and the response is a 201 success carrying a warning, not an
`InvalidRequest` rejection. -/
theorem invalid_request_amended (now : Int) (s : EngineState) (med : Option Nat) (q : Int)
    (hq : q ≤ 0) :
    (createDispensingRecord now s med q).1 = { s with dispensings := s.dispensings + 1 } ∧
    (createDispensingRecord now s med q).2
      = { status := 201, success := true, warning := true } := by
  cases med with
  | none => exact ⟨rfl, rfl⟩
  | some mid =>
    constructor <;> simp [createDispensingRecord, not_lt.2 hq]

theorem invalid_request_amended_witness :
    ((0 : Int) ≤ 0) ∧
    (createDispensingRecord 0 initState (some 5) 0).1 = { initState with dispensings := 1 } ∧
    (createDispensingRecord 0 initState (some 5) 0).2
      = { status := 201, success := true, warning := true } := by
  refine ⟨le_refl 0, ?_, (invalid_request_amended 0 initState (some 5) 0 (le_refl 0)).2⟩
  have h := (invalid_request_amended 0 initState (some 5) 0 (le_refl 0)).1
  simpa [initState] using h

/-- Claim C6, counterexample: at the requisition-issuance call site,
insufficient total stock (one batch of 5 against an issue of 8) is reported as
a 400 error response with `success: false`, not as shortfall data in a
successful result. -/
theorem shortfall_reporting_counterexample :
    (updateRequisitionItem 0
        { batches := [{ id := 0, medicine := 0, expiryDate := 100, quantityReceived := 5,
                        quantityRemaining := 5, status := BatchStatus.active }],
          ledger := [], dispensings := 0, directDispensings := 0, nextBatchId := 1 }
        true true 0 8).2
      = { status := 400, success := false } := by
  decide

/-- Claim C6, amended: at the patient-dispensing and direct-sale call sites
every response is a 201 success, so shortfall is reported only as data; at
the requisition-issuance call site an insufficient issue yields a 400 error
response instead — yet even there the partial deductions and `OUT` ledger
entries already made are retained, not rolled back. -/
theorem shortfall_reporting_amended :
    (∀ (now : Int) (s : EngineState) (med : Option Nat) (q : Int),
      (createDispensingRecord now s med q).2.status = 201 ∧
      (createDispensingRecord now s med q).2.success = true) ∧
    (∀ (now : Int) (s : EngineState) (items : Option (List (Option Nat × Int))),
      (createDirectDispensingRecord now s items).2.status = 201 ∧
      (createDirectDispensingRecord now s items).2.success = true) ∧
    (∀ (now : Int) (s : EngineState) (mid : Nat) (q : Int),
      0 < q →
      0 < (requisitionLoop now q (allocEligible now s mid)).2 →
      (updateRequisitionItem now s true true mid q).2
          = { status := 400, success := false } ∧
      (updateRequisitionItem now s true true mid q).1.ledger
          = s.ledger ++ (requisitionLoop now q (allocEligible now s mid)).1.map
              (fun p => outMovement mid p.1.id p.2) ∧
      (updateRequisitionItem now s true true mid q).1.batches
          = applyUpdates s.batches (requisitionLoop now q (allocEligible now s mid)).1) := by
  refine ⟨?_, ?_, ?_⟩
  · intro now s med q
    exact ⟨(createDispensingRecord_resp now s med q).1,
      (createDispensingRecord_resp now s med q).2.1⟩
  · intro now s items
    exact createDirectDispensingRecord_resp now s items
  · intro now s mid q hq hr
    have hst : (true && decide (0 < q)) = true := by simp [hq]
    refine ⟨?_, ?_, ?_⟩ <;> simp [updateRequisitionItem, hst, hr]

theorem shortfall_reporting_amended_witness :
    ((createDispensingRecord 0 initState (some 0) 1).2.status = 201 ∧
      (createDispensingRecord 0 initState (some 0) 1).2.success = true) ∧
    (updateRequisitionItem 0
        { batches := [{ id := 0, medicine := 0, expiryDate := 100, quantityReceived := 5,
                        quantityRemaining := 5, status := BatchStatus.active }],
          ledger := [], dispensings := 0, directDispensings := 0, nextBatchId := 1 }
        true true 0 8).2 = { status := 400, success := false } :=
  ⟨shortfall_reporting_amended.1 0 initState (some 0) 1,
   (shortfall_reporting_amended.2.2 0 _ 0 8 (by decide) (by decide)).1⟩

/-- Claim C7, counterexample: a stock audit on a medicine with no eligible
batches and a positive difference (actual count 5 against a recorded total of
0) succeeds with a 200 `success: true` response and leaves the store
untouched; no `NoBatchToAdjust` failure exists in the code. -/
theorem no_batch_to_adjust_counterexample :
    updateStockAudit 0 initState 0 5 = (initState, { status := 200, success := true }) := by
  decide

/-- Claim C7, amended: a Reconcile on a medicine with no eligible batches —
whatever the difference, positive included — silently succeeds: it performs
no adjustment, writes no ledger entry, changes nothing and responds 200 with
`success: true` rather than failing with `NoBatchToAdjust`. -/
theorem no_batch_to_adjust_amended (now : Int) (s : EngineState) (mid : Nat) (a : Int)
    (h : auditEligible now s mid = []) :
    updateStockAudit now s mid a = (s, { status := 200, success := true }) := by
  simp only [updateStockAudit, h]
  split <;> rfl

theorem no_batch_to_adjust_amended_witness :
    auditEligible 0 initState 0 = [] ∧
    updateStockAudit 0 initState 0 7 = (initState, { status := 200, success := true }) :=
  ⟨by decide, no_batch_to_adjust_amended 0 initState 0 7 (by decide)⟩

/-- Claim C8, counterexample: a Receive with quantity 0 does not fail with a
`ValidationError` — it succeeds with 201, creating a batch row with
`quantityReceived = quantityRemaining = 0` (status `depleted` via the
pre-save hook) and an `IN` ledger entry of quantity 0. -/
theorem receive_counterexample :
    (receiveItem 0 initState 7 (some 100) 0 true).2 = { status := 201, success := true } ∧
    (receiveItem 0 initState 7 (some 100) 0 true).1.batches
      = [{ id := 0, medicine := 7, expiryDate := 100, quantityReceived := 0,
           quantityRemaining := 0, status := BatchStatus.depleted }] ∧
    (receiveItem 0 initState 7 (some 100) 0 true).1.ledger
      = [{ medicine := 7, batch := some 0, mtype := MovementType.IN, quantity := 0,
           adjUp := false }] := by
  decide

/-- Claim C8, amended: Receive performs no quantity validation — every call
with a parsed expiry (any quantity, zero and negative included) creates
exactly one new batch row, never merging into an existing lot, with
`quantityRemaining = quantityReceived = qty` and status set by the pre-save
hook, plus exactly one `IN` ledger entry of that quantity; only an expiry
that is not a real date fails (the batch creation throws a cast error,
surfaced as a 400), creating no batch and no `IN` entry. -/
theorem receive_amended :
    (∀ (now : Int) (s : EngineState) (mid : Nat) (e qty : Int),
      receiveItem now s mid (some e) qty true
        = ({ s with
              batches := s.batches ++ [preSave now
                { id := s.nextBatchId, medicine := mid, expiryDate := e,
                  quantityReceived := qty, quantityRemaining := qty,
                  status := BatchStatus.active }],
              ledger := s.ledger ++ [{ medicine := mid, batch := some s.nextBatchId,
                                       mtype := MovementType.IN, quantity := qty,
                                       adjUp := false }],
              nextBatchId := s.nextBatchId + 1 },
           { status := 201, success := true })) ∧
    (∀ (now : Int) (s : EngineState) (mid : Nat) (qty : Int),
      receiveItem now s mid none qty true = (s, { status := 400, success := false })) :=
  ⟨fun now s mid e qty => receiveItem_some_eq now s mid e qty, fun _ _ _ _ => rfl⟩

/-- Claim C9: reconciliation is a no-op on no drift — a stock audit whose
`actualCount` equals the current recorded total (the sum of
`quantityRemaining` over the eligible batches) returns the store unchanged:
no batch is modified and no ledger entry is written. -/
theorem reconcile_noop_on_no_drift (now : Int) (s : EngineState) (mid : Nat) :
    updateStockAudit now s mid
        (((auditEligible now s mid).map (fun b => b.quantityRemaining)).sum)
      = (s, { status := 200, success := true }) := by
  simp [updateStockAudit]

/-- Claim C10: the dispensing controller persists its `Dispensing` record
unconditionally before any stock work and responds 201 `success: true` on
every path — including when the medicine cannot be resolved, when the
quantity is ≤ 0, and when no eligible batches exist, in which cases zero
batches are changed and zero ledger entries are written. -/
theorem dispensing_record_unconditional :
    (∀ (now : Int) (s : EngineState) (med : Option Nat) (q : Int),
      (createDispensingRecord now s med q).2.status = 201 ∧
      (createDispensingRecord now s med q).2.success = true ∧
      (createDispensingRecord now s med q).1.dispensings = s.dispensings + 1) ∧
    (∀ (now : Int) (s : EngineState) (q : Int),
      (createDispensingRecord now s none q).1 = { s with dispensings := s.dispensings + 1 }) ∧
    (∀ (now : Int) (s : EngineState) (mid : Nat) (q : Int), q ≤ 0 →
      (createDispensingRecord now s (some mid) q).1
        = { s with dispensings := s.dispensings + 1 }) ∧
    (∀ (now : Int) (s : EngineState) (mid : Nat) (q : Int),
      (allocEligible now s mid).isEmpty = true →
      (createDispensingRecord now s (some mid) q).1
        = { s with dispensings := s.dispensings + 1 }) := by
  refine ⟨fun now s med q => createDispensingRecord_resp now s med q, ?_, ?_, ?_⟩
  · intro now s q; rfl
  · intro now s mid q hq
    simp [createDispensingRecord, not_lt.2 hq]
  · intro now s mid q he
    by_cases hq : 0 < q
    · simp [createDispensingRecord, hq, allocEligible_dispensings, he]
    · simp [createDispensingRecord, hq]

theorem dispensing_record_unconditional_witness :
    ((createDispensingRecord 0 initState (some 3) 0).1 = { initState with dispensings := 1 }) ∧
    ((createDispensingRecord 0 initState (some 3) 5).1 = { initState with dispensings := 1 }) := by
  constructor
  · have h := dispensing_record_unconditional.2.2.1 0 initState 3 0 (le_refl 0)
    simpa [initState] using h
  · have h := dispensing_record_unconditional.2.2.2 0 initState 3 5 (by decide)
    simpa [initState] using h
